import Mathlib

/-!
Verification of the musicbot media-acquisition and audio-identification
pipeline.  The Python sources (`utils/recognizer.py`, `utils/downloader.py`,
`utils/tiktok_download.py`, `handlers/download.py`) are shallowly embedded:
pure string manipulation is translated to Lean functions on `List Char`,
external effects (subprocesses, HTTP calls) are supplied by explicit
environment values, Python exceptions become `Except String`, and Python
floats are modelled by `ℚ` (none of the verified properties depend on
floating-point rounding of the values involved).
-/

/-! ## Generic string helpers (Python semantics) -/

/-- `listStarts pat l` : `pat` is an initial segment of `l`
(Python `str.startswith` on the char level). -/
def listStarts : List Char → List Char → Bool
  | [], _ => true
  | _ :: _, [] => false
  | p :: ps, c :: cs => p = c && listStarts ps cs

/-- Python's `sub in s` substring test, on char lists. -/
def listContains (pat : List Char) : List Char → Bool
  | [] => listStarts pat []
  | c :: cs => listStarts pat (c :: cs) || listContains pat cs

/-- Python's `sub in s` substring test on strings. -/
def strContains (s pat : String) : Bool :=
  listContains pat.data s.data

/-- Python truthiness of an optional string combined with `or`:
`hint or default` (an empty or absent string falls through to the default). -/
def pyOr (h : Option String) (d : String) : String :=
  match h with
  | none => d
  | some s => if s = "" then d else s

/-- Rendering of a Python value that may be `None` inside an f-string. -/
def pyOptStr : Option String → String
  | none => "None"
  | some s => s

/-- `os.path.basename` for POSIX paths: everything after the last `/`. -/
def pyBasename (s : String) : String :=
  String.mk ((s.data.reverse.takeWhile (fun c => c ≠ '/')).reverse)

/-! ## `_clean_query` (utils/recognizer.py lines 41-48)

```python
def _clean_query(text: str) -> str:
    if not text:
        return ""
    base = os.path.splitext(text)[0]
    base = re.sub(r"(tmp|record|voice|audio|video|mix|file|music|song)", "", base, flags=re.I)
    base = re.sub(r"[\x5b\x5d\x28\x29\x7b\x7d_-]+", " ", base)
    base = re.sub(r"\s\x7b2,\x7d", " ", base).strip()
    return base
```
-/

/-- The whitespace class matched by Python's `\s` (Unicode) and stripped by
`str.strip()`.  Listed by codepoint. -/
def pyWs (c : Char) : Bool :=
  c.toNat ∈ [9, 10, 11, 12, 13, 28, 29, 30, 31, 32, 0x85, 0xa0, 0x1680,
    0x2000, 0x2001, 0x2002, 0x2003, 0x2004, 0x2005, 0x2006, 0x2007, 0x2008,
    0x2009, 0x200a, 0x2028, 0x2029, 0x202f, 0x205f, 0x3000]

/-- Last index at which `c` occurs in `l` (Python `str.rfind`, as an option). -/
def rfindIdx (c : Char) (l : List Char) : Option ℕ :=
  ((List.range l.length).filter (fun i => l.get? i = some c)).getLast?

/-- `os.path.splitext(p)[0]` (posixpath): drop the extension after the last
dot of the final path component, unless that component consists only of
leading dots up to it. -/
def splitextBase (l : List Char) : List Char :=
  let sepIdx : ℤ := match rfindIdx '/' l with | some i => (i : ℤ) | none => -1
  let dotIdx : ℤ := match rfindIdx '.' l with | some i => (i : ℤ) | none => -1
  if sepIdx < dotIdx then
    if (List.range' (sepIdx + 1).toNat (dotIdx - sepIdx - 1).toNat).any
        (fun i => ¬ (l.get? i = some '.')) then
      l.take dotIdx.toNat
    else l
  else l

/-- The noise tokens removed (case-insensitively) from catalog queries. -/
def noiseTokens : List (List Char) :=
  ["tmp".data, "record".data, "voice".data, "audio".data, "video".data,
   "mix".data, "file".data, "music".data, "song".data]

/-- Does some noise token match (case-insensitively) at the head of `l`?
Returns the token, trying the regex alternatives in order. -/
def noiseAt (l : List Char) : Option (List Char) :=
  noiseTokens.find? (fun tok => listStarts tok (l.map Char.toLower))

/-- Worker for `removeNoise`; the first argument counts characters of a
matched token still to be discarded (structural recursion on the list). -/
def removeNoiseAux : ℕ → List Char → List Char
  | _, [] => []
  | n + 1, _ :: rest => removeNoiseAux n rest
  | 0, c :: rest =>
    match noiseAt (c :: rest) with
    | some tok => removeNoiseAux (tok.length - 1) rest
    | none => c :: removeNoiseAux 0 rest

/-- `re.sub` with the noise-token alternation and empty replacement:
left-to-right scan, non-overlapping matches removed. -/
def removeNoise (l : List Char) : List Char :=
  removeNoiseAux 0 l

/-- Does any noise token occur (case-insensitively) anywhere in `l`? -/
def hasNoise : List Char → Bool
  | [] => false
  | c :: rest => (noiseAt (c :: rest)).isSome || hasNoise rest

/-- Membership in the character class `[\x5b\x5d\x28\x29\x7b\x7d_-]`. -/
def isBracketChar (c : Char) : Bool :=
  c = '[' || c = ']' || c = '(' || c = ')' || c = '{' || c = '}' ||
  c = '_' || c = '-'

/-- Worker for `subBracketRuns`; mode `true` means we are inside a
bracket-class run whose single replacement space was already emitted. -/
def sbAux : Bool → List Char → List Char
  | _, [] => []
  | true, c :: rest =>
    if isBracketChar c then sbAux true rest else c :: sbAux false rest
  | false, c :: rest =>
    if isBracketChar c then ' ' :: sbAux true rest else c :: sbAux false rest

/-- `re.sub(r"[...]+", " ", base)`: each maximal run of bracket-class
characters becomes a single space. -/
def subBracketRuns (l : List Char) : List Char :=
  sbAux false l

/-- Worker for `collapseWs`; mode `true` means we are inside a whitespace
run whose single replacement space was already emitted. -/
def cwAux : Bool → List Char → List Char
  | _, [] => []
  | true, c :: rest =>
    if pyWs c then cwAux true rest else c :: cwAux false rest
  | false, [c] => [c]
  | false, c₁ :: c₂ :: rest =>
    if pyWs c₁ && pyWs c₂ then ' ' :: cwAux true (c₂ :: rest)
    else c₁ :: cwAux false (c₂ :: rest)

/-- `re.sub(r"\s\x7b2,\x7d", " ", base)`: each maximal run of two or more
whitespace characters becomes a single space; isolated whitespace
characters are kept as they are. -/
def collapseWs (l : List Char) : List Char :=
  cwAux false l

/-- Python `str.strip()` on char lists. -/
def stripChars (l : List Char) : List Char :=
  ((l.dropWhile pyWs).reverse.dropWhile pyWs).reverse

/-- `_clean_query` from `utils/recognizer.py`. -/
def cleanQuery (s : String) : String :=
  if s = "" then ""
  else
    String.mk (stripChars (collapseWs (subBracketRuns (removeNoise
      (splitextBase s.data)))))

example : cleanQuery "tmp_voice [mix] hello.mp3" = "hello" := by decide
example : cleanQuery "a.b.mp3" = "a.b" := by decide
example : cleanQuery "a.b" = "a" := by decide

/-! ## Identification chain (utils/recognizer.py lines 62-159)

External effects are supplied through `RecEnv`: each third-party call
(AcoustID fingerprinting, Audd.io upload, MusicBrainz catalog lookup,
Spotify search) either returns a parsed response or raises, modelled by
`Except String`.  Fingerprint scores are modelled by `ℚ`. -/

/-- One candidate from `acoustid.match`: a `(score, recordingId, title,
artist)` tuple. -/
structure AcoustidCand where
  score : ℚ
  rid : String
  title : String
  artist : String

/-- The `result` object of a non-empty Audd.io response.  `artist`/`title`
are `r.get(...)` (may be absent); `spotifyBlock = some link?` when the
truthy `spotify` key is present, carrying the optional nested
`external_urls.spotify` link. -/
structure AuddMatch where
  artist : Option String
  title : Option String
  spotifyBlock : Option (Option String)

/-- The fields read from a `musicbrainzngs.get_recording_by_id` response;
`none` models every missing-key path of the chained `.get` defaults. -/
structure MBRec where
  artistName : Option String
  title : Option String

/-- One Spotify track item (`name`, first artist's `name`,
`external_urls.spotify`). -/
structure SpotifyTrack where
  name : String
  artist : String
  url : String

/-- Environment of one `identify_audio` run: the file path and hint given
by the caller, plus the outcome of every external call the chain may
perform.  `audd = .ok none` models a response with a missing or falsy
`result` key. -/
structure RecEnv where
  filePath : String
  hint : Option String
  convertOk : Bool
  acoustid : Except String (List AcoustidCand)
  auddConfigured : Bool
  audd : Except String (Option AuddMatch)
  mb : Except String MBRec
  spotifyConfigured : Bool
  spotifySearch : String → Except String (List SpotifyTrack)

/-- `identify_with_audd` (lines 86-113): total, its `try` absorbs every
request failure into an error text. -/
def identify_with_audd (env : RecEnv) : String :=
  if env.auddConfigured = false then "⚠️ Audd.io not configured."
  else
    match env.audd with
    | .error e => "⚠️ Audd.io error: " ++ e
    | .ok none => "😕 No match found via Audd.io."
    | .ok (some r) =>
      match r.spotifyBlock with
      | some link =>
        "🎶 <b>" ++ pyOptStr r.artist ++ "</b> — " ++ pyOptStr r.title ++
          "\n🔗 <a href=\x27" ++ pyOptStr link ++ "\x27>Listen on Spotify</a>"
      | none => "🎶 <b>" ++ pyOptStr r.artist ++ "</b> — " ++ pyOptStr r.title

/-- One line of the Spotify suggestion list (lines 74-78). -/
def spotifyItemLine (t : SpotifyTrack) : String :=
  "• <b>" ++ t.artist ++ "</b> — " ++ t.name ++ "\n🔗 <a href=\x27" ++
    t.url ++ "\x27>Listen on Spotify</a>\n\n"

/-- `search_spotify` (lines 62-82): total, its `try` absorbs every search
failure into an error text. -/
def search_spotify (env : RecEnv) (query : String) : String :=
  if env.spotifyConfigured = false then "⚠️ Spotify not configured."
  else
    let q := cleanQuery query
    if q = "" then "😕 No Spotify query available."
    else
      match env.spotifySearch q with
      | .error e => "⚠️ Spotify search error: " ++ e
      | .ok [] => "😕 No Spotify matches found."
      | .ok items =>
        items.foldl (fun m t => m ++ spotifyItemLine t)
          "🎧 <b>Closest matches on Spotify:</b>\n\n"

/-- The no-fingerprint-results branch (lines 132-138): try Audd.io, accept
its answer unless it reads as a miss or an error, otherwise fall back to a
Spotify search on the hint or the file's basename. -/
def noFpFallback (env : RecEnv) : String :=
  let audd := identify_with_audd env
  if !(strContains audd "No match") && !(strContains audd "error") then audd
  else search_spotify env (pyOr env.hint (pyBasename env.filePath))

/-- The low-confidence branch (lines 143-148): try Audd.io, otherwise fall
back to a Spotify search on the fingerprint's raw artist and title. -/
def lowConfFallback (env : RecEnv) (artist title : String) : String :=
  let audd := identify_with_audd env
  if !(strContains audd "No match") && !(strContains audd "error") then audd
  else search_spotify env (artist ++ " " ++ title)

/-- The accepted-fingerprint message (lines 150-155), with the MusicBrainz
canonical artist/title defaulting to the fingerprint's own fields. -/
def mbMessage (rec : MBRec) (c : AcoustidCand) : String :=
  "🎶 <b>" ++ rec.artistName.getD c.artist ++ "</b> — " ++
    rec.title.getD c.title ++
    "\n🔗 <a href=\x27https://musicbrainz.org/recording/" ++ c.rid ++
    "\x27>View on MusicBrainz</a>"

/-- Body of `identify_audio`'s outer `try` (lines 119-155).  The inner
`try` around the AcoustID call turns its failure into an empty result
list; only the MusicBrainz lookup can raise out of the body. -/
def identify_audio_core (env : RecEnv) : Except String String :=
  let results : List AcoustidCand :=
    match env.acoustid with
    | .error _ => []
    | .ok rs => rs
  match results with
  | [] => .ok (noFpFallback env)
  | c :: _ =>
    if c.score < mkRat 3 10 then .ok (lowConfFallback env c.artist c.title)
    else
      match env.mb with
      | .error e => .error e
      | .ok rec => .ok (mbMessage rec c)

/-- The message built by `identify_audio`'s exception handler
(lines 156-159). -/
def idFailMsg (env : RecEnv) : String :=
  "⚠️ Identification failed, but here are Spotify suggestions:\n\n" ++
    search_spotify env (pyOr env.hint (pyBasename env.filePath))

/-- `identify_audio` (lines 117-159): the body wrapped in the top-level
`try/except` returning the Spotify-suggestion message on any exception. -/
def identify_audio (env : RecEnv) : String :=
  match identify_audio_core env with
  | .ok s => s
  | .error _ => idFailMsg env

/-! ### C1 / C2 theorems -/

/-- **C1.** The identification chain never propagates an exception: the
only call whose exception can escape `identify_audio`'s body is the
MusicBrainz catalog lookup, and the top-level handler converts it into
the catalog-search-based suggestion message `idFailMsg`; a fingerprinting
(AcoustID) exception is already absorbed by the inner handler into the
no-result fallback.  Since `identify_audio : RecEnv → String` is total,
every run yields user-displayable text. -/
theorem identification_never_propagates (env : RecEnv) :
    (∀ e, identify_audio_core env = Except.error e →
      env.mb = Except.error e ∧ identify_audio env = idFailMsg env) ∧
    (∀ e, env.acoustid = Except.error e →
      identify_audio env = noFpFallback env) := by
  constructor
  · intro e h
    have hmb : env.mb = Except.error e := by
      unfold identify_audio_core at h
      rcases hac : env.acoustid with e' | rs <;> rw [hac] at h <;> simp at h
      · rcases rs with _ | ⟨c, rest⟩
        · simp at h
        · simp at h
          split at h
          · simp at h
          · rcases hmb : env.mb with e'' | rec <;> rw [hmb] at h <;>
              simp at h
            exact h ▸ rfl
    refine ⟨hmb, ?_⟩
    unfold identify_audio
    rw [h]
  · intro e h
    unfold identify_audio identify_audio_core
    rw [h]

/-- Witness for C1 at a concrete environment: a high-confidence
fingerprint whose MusicBrainz lookup raises `"boom"`, and an environment
whose AcoustID call raises. -/
def mbFailEnv : RecEnv :=
  { filePath := "/tmp/u.mp3", hint := none, convertOk := true,
    acoustid := Except.ok [⟨mkRat 9 10, "rid0", "T", "A"⟩],
    auddConfigured := false, audd := Except.ok none,
    mb := Except.error "boom",
    spotifyConfigured := false, spotifySearch := fun _ => Except.ok [] }

theorem identification_never_propagates_witness :
    mbFailEnv.mb = Except.error "boom" ∧
    identify_audio mbFailEnv = idFailMsg mbFailEnv ∧
    identify_audio { mbFailEnv with acoustid := Except.error "down" } =
      noFpFallback { mbFailEnv with acoustid := Except.error "down" } := by
  refine ⟨((identification_never_propagates mbFailEnv).1 "boom" rfl).1,
    ((identification_never_propagates mbFailEnv).1 "boom" rfl).2, ?_⟩
  exact (identification_never_propagates _).2 "down" rfl

/-- **C2.** The fingerprint confidence gate is inclusive on the accept
side: with a top candidate scoring `≥ 0.30` (`mkRat 3 10`), the chain
resolves catalog metadata for that candidate — its result is determined
by the MusicBrainz lookup alone and is unchanged under any change of the
Audd.io environment — while a top score `< 0.30` yields exactly the
Audd.io-then-Spotify fallback. -/
theorem confidence_gate_inclusive (env : RecEnv) (c : AcoustidCand)
    (rest : List AcoustidCand) (hac : env.acoustid = Except.ok (c :: rest)) :
    (mkRat 3 10 ≤ c.score →
      identify_audio env =
        (match env.mb with
         | Except.ok rec => mbMessage rec c
         | Except.error _ => idFailMsg env) ∧
      ∀ a b, identify_audio
          { env with audd := a, auddConfigured := b } = identify_audio env) ∧
    (c.score < mkRat 3 10 →
      identify_audio env = lowConfFallback env c.artist c.title) := by
  constructor
  · intro hscore
    have hbranch : ∀ (env' : RecEnv), env'.acoustid = Except.ok (c :: rest) →
        identify_audio env' =
          (match env'.mb with
           | Except.ok rec => mbMessage rec c
           | Except.error _ => idFailMsg env') := by
      intro env' h'
      unfold identify_audio identify_audio_core
      rw [h']
      simp only [if_neg (not_lt.mpr hscore)]
      rcases env'.mb with e | rec <;> simp
    refine ⟨hbranch env hac, ?_⟩
    intro a b
    rw [hbranch env hac, hbranch { env with audd := a, auddConfigured := b } hac]
    rcases env.mb with e | rec <;> rfl
  · intro hscore
    unfold identify_audio identify_audio_core
    rw [hac]
    simp only [if_pos hscore]

/-- Witness for C2: a candidate scoring exactly `0.30` is accepted and
resolved through MusicBrainz, ignoring the Audd.io environment; the same
candidate at `0.29` falls back. -/
def gateEnv : RecEnv :=
  { filePath := "/tmp/u.mp3", hint := none, convertOk := true,
    acoustid := Except.ok [⟨mkRat 3 10, "rid1", "Title Y", "Artist X"⟩],
    auddConfigured := true, audd := Except.error "netfail",
    mb := Except.ok ⟨some "Artist X", some "Title Y"⟩,
    spotifyConfigured := false, spotifySearch := fun _ => Except.ok [] }

theorem confidence_gate_inclusive_witness :
    identify_audio gateEnv =
      mbMessage ⟨some "Artist X", some "Title Y"⟩
        ⟨mkRat 3 10, "rid1", "Title Y", "Artist X"⟩ ∧
    identify_audio { gateEnv with
        acoustid := Except.ok [⟨mkRat 29 100, "rid1", "Title Y", "Artist X"⟩] } =
      lowConfFallback { gateEnv with
        acoustid := Except.ok [⟨mkRat 29 100, "rid1", "Title Y", "Artist X"⟩] }
        "Artist X" "Title Y" := by
  constructor
  · exact ((confidence_gate_inclusive gateEnv _ [] rfl).1 (by decide)).1
  · exact (confidence_gate_inclusive _ _ [] rfl).2 (by decide)

/-! ### C7: idempotence analysis of `_clean_query` -/

/-- Bracket-class characters never survive `sbAux`. -/
theorem sbAux_no_bracket : ∀ (l : List Char) (mode : Bool) (x : Char),
    x ∈ sbAux mode l → isBracketChar x = false := by
  intro l
  induction l with
  | nil => intro mode x hx; cases mode <;> simp [sbAux] at hx
  | cons a rest ih =>
    intro mode x hx
    by_cases ha : isBracketChar a = true
    · cases mode
      · rw [show sbAux false (a :: rest) = ' ' :: sbAux true rest from by
          simp [sbAux, ha]] at hx
        rcases List.mem_cons.mp hx with h | h
        · subst h; decide
        · exact ih true x h
      · rw [show sbAux true (a :: rest) = sbAux true rest from by
          simp [sbAux, ha]] at hx
        exact ih true x hx
    · have ha' : isBracketChar a = false := by simpa using ha
      cases mode
      · rw [show sbAux false (a :: rest) = a :: sbAux false rest from by
          simp [sbAux, ha']] at hx
        rcases List.mem_cons.mp hx with h | h
        · subst h; exact ha'
        · exact ih false x h
      · rw [show sbAux true (a :: rest) = a :: sbAux false rest from by
          simp [sbAux, ha']] at hx
        rcases List.mem_cons.mp hx with h | h
        · subst h; exact ha'
        · exact ih false x h

/-- Every character emitted by `cwAux` is a space or comes from the input. -/
theorem cwAux_mem : ∀ (l : List Char) (mode : Bool) (x : Char),
    x ∈ cwAux mode l → x = ' ' ∨ x ∈ l := by
  intro l
  induction l with
  | nil => intro mode x hx; cases mode <;> simp [cwAux] at hx
  | cons a rest ih =>
    intro mode x hx
    cases mode
    · match rest, hx with
      | [], hx =>
        rw [show cwAux false [a] = [a] from rfl] at hx
        simp at hx; simp [hx]
      | b :: rest', hx =>
        by_cases hab : (pyWs a && pyWs b) = true
        · rw [show cwAux false (a :: b :: rest') = ' ' :: cwAux true (b :: rest')
            from by simp [cwAux, hab]] at hx
          rcases List.mem_cons.mp hx with h | h
          · exact Or.inl h
          · rcases ih true x h with h' | h'
            · exact Or.inl h'
            · exact Or.inr (List.mem_cons_of_mem a h')
        · rw [show cwAux false (a :: b :: rest') = a :: cwAux false (b :: rest')
            from by simp only [cwAux]; rw [if_neg hab]] at hx
          rcases List.mem_cons.mp hx with h | h
          · exact Or.inr (h ▸ List.mem_cons_self a _)
          · rcases ih false x h with h' | h'
            · exact Or.inl h'
            · exact Or.inr (List.mem_cons_of_mem a h')
    · by_cases ha : pyWs a = true
      · rw [show cwAux true (a :: rest) = cwAux true rest from by
          simp [cwAux, ha]] at hx
        rcases ih true x hx with h' | h'
        · exact Or.inl h'
        · exact Or.inr (List.mem_cons_of_mem a h')
      · rw [show cwAux true (a :: rest) = a :: cwAux false rest from by
          simp [cwAux, ha]] at hx
        rcases List.mem_cons.mp hx with h | h
        · exact Or.inr (h ▸ List.mem_cons_self a _)
        · rcases ih false x h with h' | h'
          · exact Or.inl h'
          · exact Or.inr (List.mem_cons_of_mem a h')

/-- Adjacent characters in `cwAux` output are never both whitespace. -/
def noWsPair (x y : Char) : Prop := (pyWs x && pyWs y) = false

/-- The head emitted in skip mode is never whitespace. -/
theorem cwAux_true_head : ∀ (l : List Char) (h : Char),
    (cwAux true l).head? = some h → pyWs h = false := by
  intro l
  induction l with
  | nil => intro h hh; simp [cwAux] at hh
  | cons a rest ih =>
    intro h hh
    by_cases ha : pyWs a = true
    · rw [show cwAux true (a :: rest) = cwAux true rest from by
        simp [cwAux, ha]] at hh
      exact ih h hh
    · rw [show cwAux true (a :: rest) = a :: cwAux false rest from by
        simp [cwAux, ha]] at hh
      simp at hh
      simpa [← hh] using ha

/-- In normal mode a non-whitespace head is emitted unchanged. -/
theorem cwAux_false_head (a : Char) (l : List Char) (ha : pyWs a = false) :
    (cwAux false (a :: l)).head? = some a := by
  match l with
  | [] => rfl
  | b :: rest =>
    rw [show cwAux false (a :: b :: rest) = a :: cwAux false (b :: rest) from by
      simp only [cwAux]; rw [if_neg (by simp [ha])]]
    rfl

/-- `cwAux` output never contains two adjacent whitespace characters. -/
theorem cwAux_chain : ∀ (l : List Char) (mode : Bool),
    List.Chain' noWsPair (cwAux mode l) := by
  intro l
  induction l with
  | nil => intro mode; cases mode <;> simp [cwAux]
  | cons a rest ih =>
    intro mode
    cases mode
    · match rest with
      | [] => simp [cwAux, List.chain'_singleton]
      | b :: rest' =>
        by_cases hab : (pyWs a && pyWs b) = true
        · rw [show cwAux false (a :: b :: rest') = ' ' :: cwAux true (b :: rest')
            from by simp [cwAux, hab]]
          refine List.chain'_cons'.mpr ⟨?_, ih true⟩
          intro y hy
          have := cwAux_true_head (b :: rest') y (by simpa using hy)
          simp [noWsPair, this]
        · rw [show cwAux false (a :: b :: rest') = a :: cwAux false (b :: rest')
            from by simp only [cwAux]; rw [if_neg hab]]
          refine List.chain'_cons'.mpr ⟨?_, ih false⟩
          intro y hy
          by_cases hb : pyWs b = true
          · have ha : pyWs a = false := by
              rcases Bool.and_eq_false_iff.mp (by simpa using hab) with h | h
              · exact h
              · exact absurd hb (by simp [h])
            simp [noWsPair, ha]
          · have hb' : pyWs b = false := by simpa using hb
            have := cwAux_false_head b rest' hb'
            rw [this] at hy
            simp at hy
            simp [noWsPair, ← hy, hb']
    · by_cases ha : pyWs a = true
      · rw [show cwAux true (a :: rest) = cwAux true rest from by
          simp [cwAux, ha]]
        exact ih true
      · rw [show cwAux true (a :: rest) = a :: cwAux false rest from by
          simp [cwAux, ha]]
        refine List.chain'_cons'.mpr ⟨?_, ih false⟩
        intro y hy
        simp [noWsPair, show pyWs a = false from by simpa using ha]

/-- On input with no adjacent whitespace, `cwAux` in normal mode is the
identity. -/
theorem cwAux_false_id : ∀ (l : List Char),
    List.Chain' noWsPair l → cwAux false l = l := by
  intro l
  induction l with
  | nil => intro _; rfl
  | cons a rest ih =>
    intro hch
    match rest, hch with
    | [], _ => rfl
    | b :: rest', hch =>
      obtain ⟨hab, htail⟩ := List.chain'_cons'.mp hch
      have : (pyWs a && pyWs b) = false := hab b rfl
      calc cwAux false (a :: b :: rest')
          = a :: cwAux false (b :: rest') := by
            simp only [cwAux]; rw [if_neg (by simp [this])]
        _ = a :: b :: rest' := by rw [ih htail]

/-- On bracket-free input, `sbAux` in normal mode is the identity. -/
theorem sbAux_false_id : ∀ (l : List Char),
    (∀ c ∈ l, isBracketChar c = false) → sbAux false l = l := by
  intro l
  induction l with
  | nil => intro _; rfl
  | cons a rest ih =>
    intro hl
    have ha := hl a (List.mem_cons_self a rest)
    calc sbAux false (a :: rest) = a :: sbAux false rest := by
          simp [sbAux, ha]
      _ = a :: rest := by
          rw [ih (fun c hc => hl c (List.mem_cons_of_mem a hc))]

/-- On noise-free input, noise removal is the identity. -/
theorem removeNoiseAux_id : ∀ (l : List Char),
    hasNoise l = false → removeNoiseAux 0 l = l := by
  intro l
  induction l with
  | nil => intro _; rfl
  | cons a rest ih =>
    intro hl
    have h2 : noiseAt (a :: rest) = none ∧ hasNoise rest = false := by
      simpa [hasNoise] using hl
    calc removeNoiseAux 0 (a :: rest)
        = a :: removeNoiseAux 0 rest := by
          conv_lhs => rw [removeNoiseAux]
          rw [h2.1]
      _ = a :: rest := by rw [ih h2.2]

/-- The head surviving `dropWhile pyWs` is never whitespace. -/
theorem dropWhile_head_false : ∀ (l : List Char) (h : Char),
    (l.dropWhile pyWs).head? = some h → pyWs h = false := by
  intro l
  induction l with
  | nil => intro h hh; simp at hh
  | cons a rest ih =>
    intro h hh
    by_cases ha : pyWs a = true
    · rw [List.dropWhile_cons_of_pos ha] at hh
      exact ih h hh
    · rw [List.dropWhile_cons_of_neg ha] at hh
      simp at hh
      simpa [← hh] using ha

/-- `dropWhile` is the identity when the head already fails the test. -/
theorem dropWhile_of_head_false (l : List Char)
    (h : ∀ x, l.head? = some x → pyWs x = false) : l.dropWhile pyWs = l := by
  match l with
  | [] => rfl
  | a :: rest =>
    have := h a rfl
    rw [List.dropWhile_cons_of_neg (by simp [this])]

/-- `stripChars` is idempotent. -/
theorem stripChars_idem (l : List Char) :
    stripChars (stripChars l) = stripChars l := by
  unfold stripChars
  set x := ((l.dropWhile pyWs).reverse.dropWhile pyWs).reverse with hx
  have h1 : x.dropWhile pyWs = x := by
    apply dropWhile_of_head_false
    intro c hc
    rw [hx, List.head?_reverse] at hc
    rcases hlast : ((l.dropWhile pyWs).reverse.dropWhile pyWs) with _ | ⟨b, r⟩
    · rw [hlast] at hc; simp at hc
    · have hsuf := List.dropWhile_suffix (l := (l.dropWhile pyWs).reverse) pyWs
      rw [hlast] at hsuf
      obtain ⟨pre, hpre⟩ := hsuf
      have : ((l.dropWhile pyWs).reverse).getLast? = some c := by
        rw [← hpre, List.getLast?_append_of_ne_nil pre (by simp), ← hlast]
        exact hc
      rw [List.getLast?_reverse] at this
      exact dropWhile_head_false l c this
  rw [h1]
  have h2 : x.reverse.dropWhile pyWs = x.reverse := by
    apply dropWhile_of_head_false
    intro c hc
    rw [hx, List.reverse_reverse] at hc
    exact dropWhile_head_false _ c hc
  rw [h2, hx, List.reverse_reverse]

/-- Characters of `stripChars l` come from `l`. -/
theorem stripChars_mem (l : List Char) (x : Char) (hx : x ∈ stripChars l) :
    x ∈ l := by
  unfold stripChars at hx
  rw [List.mem_reverse] at hx
  have h1 := (List.dropWhile_sublist (l := (l.dropWhile pyWs).reverse) pyWs).subset hx
  rw [List.mem_reverse] at h1
  exact (List.dropWhile_sublist pyWs).subset h1

/-- `stripChars` preserves the no-adjacent-whitespace invariant. -/
theorem stripChars_chain (l : List Char) (h : List.Chain' noWsPair l) :
    List.Chain' noWsPair (stripChars l) := by
  have hsymm : ∀ (m : List Char), List.Chain' noWsPair m →
      List.Chain' (flip noWsPair) m := by
    intro m hm
    refine List.Chain'.imp ?_ hm
    intro a b hab
    simpa [noWsPair, flip, Bool.and_comm] using hab
  have hdw : ∀ (m : List Char), List.Chain' noWsPair m →
      List.Chain' noWsPair (m.dropWhile pyWs) := by
    intro m hm
    obtain ⟨pre, hpre⟩ := List.dropWhile_suffix (l := m) pyWs
    exact List.Chain'.right_of_append (hpre ▸ hm)
  unfold stripChars
  rw [List.chain'_reverse]
  exact hsymm _ (hdw _ (by rw [List.chain'_reverse]; exact hsymm _ (hdw _ h)))

/-- With no dot in the input, `splitextBase` is the identity. -/
theorem splitextBase_no_dot (l : List Char) (h : '.' ∉ l) :
    splitextBase l = l := by
  have hl : rfindIdx '.' l = none := by
    unfold rfindIdx
    have hf : (List.range l.length).filter (fun i => l.get? i = some '.') = [] := by
      rw [List.filter_eq_nil_iff]
      intro i _
      simp only [decide_eq_true_eq]
      intro hc
      exact h (List.get?_mem hc)
    rw [hf]
    rfl
  rcases hsep : rfindIdx '/' l with _ | i
  · simp only [splitextBase, hl, hsep]; norm_num
  · simp only [splitextBase, hl, hsep]
    rw [if_neg (by omega)]

/-- The possible shapes of `cleanQuery` output. -/
theorem cleanShape (s : String) : cleanQuery s = "" ∨
    ∃ z, (cleanQuery s).data = stripChars (collapseWs (sbAux false z)) := by
  unfold cleanQuery
  split
  · exact Or.inl rfl
  · exact Or.inr ⟨removeNoise (splitextBase s.data), rfl⟩

/-- **C7 (amended).** `_clean_query` is idempotent on every cleaned string
that contains no `.` and no noise-token occurrence.  (As stated — for all
inputs — idempotence fails: a dot surviving the first pass is treated as
an extension separator by the second, see the counterexample.) -/
theorem clean_query_conditional_idem (s : String)
    (hdot : '.' ∉ (cleanQuery s).data)
    (hnoise : hasNoise (cleanQuery s).data = false) :
    cleanQuery (cleanQuery s) = cleanQuery s := by
  rcases cleanShape s with h0 | ⟨z, hz⟩
  · rw [h0]; rfl
  · by_cases ht : cleanQuery s = ""
    · rw [ht]; rfl
    · have hbr : ∀ c ∈ (cleanQuery s).data, isBracketChar c = false := by
        intro c hc
        rw [hz] at hc
        have hc1 := stripChars_mem _ _ hc
        rcases cwAux_mem _ _ _ hc1 with h' | h'
        · subst h'; decide
        · exact sbAux_no_bracket z false c h'
      have hch : List.Chain' noWsPair (cleanQuery s).data := by
        rw [hz]; exact stripChars_chain _ (cwAux_chain _ false)
      have hst : stripChars (cleanQuery s).data = (cleanQuery s).data := by
        rw [hz]; exact stripChars_idem _
      obtain ⟨t, ht'⟩ : ∃ t, cleanQuery s = t := ⟨_, rfl⟩
      rw [ht'] at hdot hnoise hbr hch hst ht ⊢
      unfold cleanQuery
      rw [if_neg ht, splitextBase_no_dot _ hdot,
        show removeNoise t.data = t.data from removeNoiseAux_id _ hnoise,
        show subBracketRuns t.data = t.data from sbAux_false_id _ hbr,
        show collapseWs t.data = t.data from cwAux_false_id _ hch, hst]

/-- C7 counterexample: `"a.b"` is itself a cleaned string
(`cleanQuery "a.b.mp3" = "a.b"`), yet cleaning it again yields `"a"`. -/
theorem clean_query_not_idempotent :
    cleanQuery (cleanQuery "a.b.mp3") ≠ cleanQuery "a.b.mp3" := by decide

/-- Witness for the amended C7 at a concrete input. -/
theorem clean_query_conditional_idem_witness :
    cleanQuery (cleanQuery "My Track (Live).mp3") =
      cleanQuery "My Track (Live).mp3" :=
  clean_query_conditional_idem "My Track (Live).mp3" (by decide) (by decide)

/-! ## Process runners and the TikTok retry downloader

`utils/downloader.py` lines 54-71 (`_run`), 389-517
(`run_yt_dlp_tiktok_enhanced`) and `utils/tiktok_download.py` lines 60-73
(`_run_ytdlp_command`).  A subprocess invocation is modelled by the data
the code inspects: exit code and captured output, or the fact that the
deadline elapsed. -/

/-- A completed subprocess: exit code and captured output. -/
structure ProcResult where
  exitCode : ℤ
  stdout : String
  stderr : String

/-- `_run` (downloader.py 54-71): raises `RuntimeError("Command failed:
{stderr}")` on non-zero exit, otherwise returns decoded stdout/stderr.
It imposes no deadline of its own. -/
def _run (p : ProcResult) : Except String (String × String) :=
  if p.exitCode ≠ 0 then Except.error ("Command failed: " ++ p.stderr)
  else Except.ok (p.stdout, p.stderr)

/-- Behaviour of a subprocess relative to a fixed deadline: it either
finishes in time (with exit code and output) or runs past it. -/
inductive ProcBehavior where
  | finishes (exitCode : ℤ) (stdout stderr : String)
  | runsPast

/-- `_run_ytdlp_command` (tiktok_download.py 60-73): waits up to 120 s;
on timeout it kills the subprocess (`Bool` component: kill issued) and
raises; otherwise it returns decoded output — without inspecting the
exit code. -/
def _run_ytdlp_command : ProcBehavior → Except String (String × String) × Bool
  | .finishes _ o e => (Except.ok (o, e), false)
  | .runsPast => (Except.error "Download timed out after 120 seconds", true)

/-- One TikTok retry strategy (downloader.py 399-425). -/
structure TtStrategy where
  name : String
  api_hostname : String
  timeout : ℕ
  retries : ℕ
  mobile : Bool

/-- The four strategies of `run_yt_dlp_tiktok_enhanced`, in declared
order. -/
def tiktokStrategies : List TtStrategy :=
  [⟨"API v1 (US East)", "api16-normal-c-useast1a.tiktokv.com", 30, 5, false⟩,
   ⟨"API v2 (Singapore)", "api22-normal-c-alisg.tiktokv.com", 45, 8, false⟩,
   ⟨"API v3 (US East 2)", "api19-normal-c-useast2a.tiktokv.com", 60, 10, false⟩,
   ⟨"Mobile API", "api16-normal-c-useast1a.tiktokv.com", 90, 15, true⟩]

/-- Outcome of one strategy attempt: the wrapped `_run` call finished in
time (carrying its `ProcResult` and the non-hidden files found in the
working directory afterwards), or `asyncio.wait_for` expired. -/
inductive AttemptOutcome where
  | completed (run : ProcResult) (files : List String)
  | timedOut

/-- A successful download dict: `{'success': True, 'paths': files,
'platform': 'tiktok', 'method': strategy['name']}`. -/
structure TtSuccess where
  paths : List String
  method : String
deriving DecidableEq

/-- The terminal message of `run_yt_dlp_tiktok_enhanced`
(lines 513-517). -/
def exhaustMsg (n : ℕ) (lastError : Option String) : String :=
  "TikTok download failed after " ++ toString n ++ " attempts. " ++
  "TikTok may be blocking requests. Try: 1) Update yt-dlp, " ++
  "2) Add fresh cookies, 3) Use VPN. Last error: " ++ pyOptStr lastError

/-- Does the attempt fail to be a final result (non-zero exit, no files,
or timeout)?  A strategy succeeds exactly when it yields at least one
file. -/
def attemptFails : AttemptOutcome → Bool
  | .completed p files => p.exitCode != 0 || files.isEmpty
  | .timedOut => true

/-- The strategy loop of `run_yt_dlp_tiktok_enhanced` (lines 429-517):
`i` is the 1-based index of the current strategy, `lastErr` the error
recorded so far.  A strategy whose run completes with files is the final
result; a run error or timeout records an error; a clean run with no
files records nothing and falls through. -/
def ttLoop (env : ℕ → AttemptOutcome) (total : ℕ) :
    List TtStrategy → ℕ → Option String → Except String TtSuccess
  | [], _, lastErr => Except.error (exhaustMsg total lastErr)
  | s :: rest, i, lastErr =>
    match env i with
    | .completed p files =>
      match _run p with
      | .error e => ttLoop env total rest (i + 1) (some e)
      | .ok _ =>
        if files ≠ [] then Except.ok ⟨files, s.name⟩
        else ttLoop env total rest (i + 1) lastErr
    | .timedOut =>
      ttLoop env total rest (i + 1)
        (some ("Timeout after " ++ toString s.timeout ++ "s"))

/-- The sleep before the next strategy: performed only when a later
strategy exists (`if i < len(strategies)`), with `wait_time = i * 3`
(lines 497-501). -/
def delayPre (rest : List TtStrategy) (i : ℕ) : List ℕ :=
  match rest with
  | [] => []
  | _ :: _ => [i * 3]

/-- The backoff sleeps performed by the loop, in order. -/
def ttDelays (env : ℕ → AttemptOutcome) : List TtStrategy → ℕ → List ℕ
  | [], _ => []
  | _ :: rest, i =>
    match env i with
    | .completed p files =>
      match _run p with
      | .ok _ =>
        if files ≠ [] then []
        else delayPre rest i ++ ttDelays env rest (i + 1)
      | .error _ => delayPre rest i ++ ttDelays env rest (i + 1)
    | .timedOut => delayPre rest i ++ ttDelays env rest (i + 1)

/-- `run_yt_dlp_tiktok_enhanced` over its concrete strategy table. -/
def run_yt_dlp_tiktok_enhanced (env : ℕ → AttemptOutcome) :
    Except String TtSuccess :=
  ttLoop env tiktokStrategies.length tiktokStrategies 1 none

/-- Every delay produced from index `i` on is at least `i * 3`. -/
theorem ttDelays_lb (env : ℕ → AttemptOutcome) : ∀ (strats : List TtStrategy)
    (i d : ℕ), d ∈ ttDelays env strats i → i * 3 ≤ d := by
  intro strats
  induction strats with
  | nil => intro i d hd; simp [ttDelays] at hd
  | cons s rest ih =>
    intro i d hd
    have step : d ∈ delayPre rest i ++ ttDelays env rest (i + 1) →
        i * 3 ≤ d := by
      intro hd
      rcases List.mem_append.mp hd with h | h
      · rcases rest with _ | ⟨a, t⟩
        · simp [delayPre] at h
        · simp [delayPre] at h
          omega
      · have := ih (i + 1) d h
        omega
    unfold ttDelays at hd
    rcases henv : env i with ⟨p, files⟩ | _ <;> rw [henv] at hd <;>
      dsimp only at hd
    · rcases hrun : _run p with e | v <;> rw [hrun] at hd <;> dsimp only at hd
      · exact step hd
      · by_cases hf : files ≠ []
        · rw [if_pos hf] at hd; simp at hd
        · rw [if_neg hf] at hd
          exact step hd
    · exact step hd

/-- The delay sequence is non-decreasing, for every environment. -/
theorem ttDelays_chain (env : ℕ → AttemptOutcome) : ∀ (strats : List TtStrategy)
    (i : ℕ), List.Chain' (fun a b => a ≤ b) (ttDelays env strats i) := by
  intro strats
  induction strats with
  | nil => intro i; simp [ttDelays]
  | cons s rest ih =>
    intro i
    have hcons : List.Chain' (fun a b => a ≤ b)
        (i * 3 :: ttDelays env rest (i + 1)) := by
      refine List.chain'_cons'.mpr ⟨?_, ih (i + 1)⟩
      intro y hy
      have hmem : y ∈ ttDelays env rest (i + 1) := by
        rcases hrest : ttDelays env rest (i + 1) with _ | ⟨a, t⟩
        · rw [hrest] at hy; simp at hy
        · rw [hrest] at hy; simp at hy; subst hy
          exact List.mem_cons_self a t
      have := ttDelays_lb env rest (i + 1) y hmem
      omega
    have step : List.Chain' (fun a b => a ≤ b)
        (delayPre rest i ++ ttDelays env rest (i + 1)) := by
      rcases rest with _ | ⟨a, t⟩
      · simpa [delayPre] using ih (i + 1)
      · simpa [delayPre] using hcons
    unfold ttDelays
    rcases henv : env i with ⟨p, files⟩ | _ <;> dsimp only
    · rcases hrun : _run p with e | v <;> dsimp only
      · exact step
      · by_cases hf : files ≠ []
        · rw [if_pos hf]; simp
        · rw [if_neg hf]
          exact step
    · exact step

/-- An `_run` success forces a zero exit code. -/
theorem _run_ok_exit (p : ProcResult) (v : String × String)
    (h : _run p = Except.ok v) : p.exitCode = 0 := by
  by_cases hz : p.exitCode = 0
  · exact hz
  · rw [_run, if_pos hz] at h
    exact absurd h (by simp)

/-- If strategy `j` (0-based offset from index `i₀`) is the first whose
attempt completes with a zero exit and a non-empty file list, the loop
returns it. -/
theorem ttLoop_first_success (env : ℕ → AttemptOutcome) :
    ∀ (strats : List TtStrategy) (total i₀ j : ℕ) (hj : j < strats.length)
      (p : ProcResult) (files : List String),
      env (i₀ + j) = AttemptOutcome.completed p files →
      p.exitCode = 0 → files ≠ [] →
      (∀ k, k < j → attemptFails (env (i₀ + k)) = true) →
      ∀ lastErr, ttLoop env total strats i₀ lastErr =
        Except.ok ⟨files, (strats.get ⟨j, hj⟩).name⟩ := by
  intro strats
  induction strats with
  | nil => intro total i₀ j hj; exact absurd hj (by simp)
  | cons s rest ih =>
    intro total i₀ j hj p files hsucc hexit hfiles hfail lastErr
    match j, hj, hsucc, hfail with
    | 0, hj, hsucc, hfail =>
      rw [Nat.add_zero] at hsucc
      unfold ttLoop
      rw [hsucc]
      dsimp only
      rw [show _run p = Except.ok (p.stdout, p.stderr) from by
        rw [_run, if_neg (by simp [hexit])]]
      dsimp only
      rw [if_pos hfiles]
      rfl
    | j + 1, hj, hsucc, hfail =>
      have hfail0 : attemptFails (env i₀) = true := by
        have := hfail 0 (Nat.succ_pos j)
        rwa [Nat.add_zero] at this
      have hsucc' : env ((i₀ + 1) + j) = AttemptOutcome.completed p files := by
        rw [show (i₀ + 1) + j = i₀ + (j + 1) from by omega]
        exact hsucc
      have hfail' : ∀ k, k < j → attemptFails (env ((i₀ + 1) + k)) = true := by
        intro k hk
        rw [show (i₀ + 1) + k = i₀ + (k + 1) from by omega]
        exact hfail (k + 1) (by omega)
      have hj' : j < rest.length := by simpa using hj
      have hstep := ih total (i₀ + 1) j hj' p files hsucc' hexit hfiles hfail'
      have hget : (rest.get ⟨j, hj'⟩).name =
          ((s :: rest).get ⟨j + 1, hj⟩).name := by
        rw [List.get_cons_succ]
      unfold ttLoop
      rcases henv : env i₀ with ⟨p', files'⟩ | _
      · dsimp only
        rcases hrun : _run p' with e | v
        · dsimp only
          rw [hstep (some e), hget]
        · dsimp only
          have hz := _run_ok_exit p' v hrun
          have hempty : files' = [] := by
            rw [henv] at hfail0
            simp only [attemptFails, hz] at hfail0
            simpa using hfail0
          rw [if_neg (by simp [hempty]), hstep lastErr, hget]
      · dsimp only
        rw [hstep _, hget]

/-- **C3.** The retry downloader walks its strategy list strictly in
declared order: if strategies before the `j`-th all fail (error, timeout
or no files) and the `j`-th attempt completes with exit 0 and at least
one file, then for every environment agreeing up to the `j`-th attempt
the loop returns success with exactly that file list, stamped
`method = strategy.name` of the `j`-th strategy — later strategies are
never consulted — and the backoff delays slept are non-decreasing. -/
theorem strategies_tried_in_order (env env' : ℕ → AttemptOutcome)
    (strats : List TtStrategy) (total i₀ j : ℕ) (hj : j < strats.length)
    (p : ProcResult) (files : List String)
    (hagree : ∀ k, k ≤ j → env' (i₀ + k) = env (i₀ + k))
    (hsucc : env (i₀ + j) = AttemptOutcome.completed p files)
    (hexit : p.exitCode = 0) (hfiles : files ≠ [])
    (hfail : ∀ k, k < j → attemptFails (env (i₀ + k)) = true) :
    (∀ lastErr, ttLoop env' total strats i₀ lastErr =
      Except.ok ⟨files, (strats.get ⟨j, hj⟩).name⟩) ∧
    List.Chain' (fun a b => a ≤ b) (ttDelays env' strats i₀) := by
  refine ⟨?_, ttDelays_chain env' strats i₀⟩
  exact ttLoop_first_success env' strats total i₀ j hj p files
    ((hagree j (le_refl j)).trans hsucc) hexit hfiles
    (fun k hk => by rw [hagree k (le_of_lt hk)]; exact hfail k hk)

/-- Witness environment for C3: strategy 1 times out, strategy 2 delivers
one file. -/
def envSecondWins : ℕ → AttemptOutcome := fun i =>
  if i = 1 then AttemptOutcome.timedOut
  else AttemptOutcome.completed ⟨0, "", ""⟩ ["/tmp/media_x/output.mp4"]

theorem strategies_tried_in_order_witness :
    run_yt_dlp_tiktok_enhanced envSecondWins =
      Except.ok ⟨["/tmp/media_x/output.mp4"], "API v2 (Singapore)"⟩ ∧
    List.Chain' (fun a b => a ≤ b)
      (ttDelays envSecondWins tiktokStrategies 1) := by
  have h := strategies_tried_in_order envSecondWins envSecondWins
    tiktokStrategies 4 1 1 (by decide) ⟨0, "", ""⟩ ["/tmp/media_x/output.mp4"]
    (fun k _ => rfl) rfl rfl (by decide)
    (by
      intro k hk
      have hk0 : k = 0 := by omega
      subst hk0
      decide)
  exact ⟨h.1 none, h.2⟩

/-! ### C4: the error attached after exhaustion -/

/-- The error the loop records for one attempt, if any: a run error or a
timeout records text, a clean run with no files records nothing. -/
def recordedError (o : AttemptOutcome) (s : TtStrategy) : Option String :=
  match o with
  | .completed p _ =>
    match _run p with
    | .error e => some e
    | .ok _ => none
  | .timedOut => some ("Timeout after " ++ toString s.timeout ++ "s")

/-- The `last_error` variable after walking the whole list. -/
def lastRecordedError (env : ℕ → AttemptOutcome) :
    List TtStrategy → ℕ → Option String → Option String
  | [], _, acc => acc
  | s :: rest, i, acc =>
    lastRecordedError env rest (i + 1)
      (match recordedError (env i) s with
       | some e => some e
       | none => acc)

/-- C4 counterexample: strategies 1-3 fail with errors, strategy 4 exits
cleanly but yields no files — so every strategy fails, yet the attached
`Last error` is strategy 3's message, and strategy 4 (whose failure mode
recorded no error at all) is not represented. -/
def envC4 : ℕ → AttemptOutcome := fun i =>
  if i = 1 then AttemptOutcome.completed ⟨1, "", "e1"⟩ []
  else if i = 2 then AttemptOutcome.timedOut
  else if i = 3 then AttemptOutcome.completed ⟨1, "", "e3"⟩ []
  else AttemptOutcome.completed ⟨0, "", ""⟩ []

theorem exhausted_error_not_from_last_strategy :
    run_yt_dlp_tiktok_enhanced envC4 =
      Except.error (exhaustMsg 4 (some "Command failed: e3")) ∧
    (∀ i, 1 ≤ i → i ≤ 4 → attemptFails (envC4 i) = true) ∧
    envC4 4 = AttemptOutcome.completed ⟨0, "", ""⟩ [] ∧
    recordedError (envC4 4) (tiktokStrategies.get ⟨3, by decide⟩) = none := by
  refine ⟨rfl, ?_, rfl, rfl⟩
  intro i h1 h4
  interval_cases i <;> decide

/-- **C4 (amended).** When every strategy fails, the loop terminates as a
single failure carrying the most recently *recorded* error — the error of
the last strategy that failed with a process error or timeout; a trailing
strategy that merely produced no files leaves the previous error in
place.  No attempt beyond the table is consulted (any environment
agreeing on the table's indices gives the same terminal failure). -/
theorem all_strategies_exhausted (env env' : ℕ → AttemptOutcome)
    (strats : List TtStrategy) (total : ℕ) :
    ∀ (i₀ : ℕ) (acc : Option String),
      (∀ k, k < strats.length → env' (i₀ + k) = env (i₀ + k)) →
      (∀ k, k < strats.length → attemptFails (env (i₀ + k)) = true) →
      ttLoop env' total strats i₀ acc =
        Except.error (exhaustMsg total (lastRecordedError env strats i₀ acc)) := by
  induction strats with
  | nil => intro i₀ acc _ _; rfl
  | cons s rest ih =>
    intro i₀ acc hagree hfail
    have hfail0 : attemptFails (env i₀) = true := by
      have := hfail 0 (Nat.succ_pos rest.length)
      rwa [Nat.add_zero] at this
    have hagree0 : env' i₀ = env i₀ := by
      have := hagree 0 (Nat.succ_pos rest.length)
      rwa [Nat.add_zero] at this
    have hagree' : ∀ k, k < rest.length → env' ((i₀ + 1) + k) = env ((i₀ + 1) + k) := by
      intro k hk
      rw [show (i₀ + 1) + k = i₀ + (k + 1) from by omega]
      exact hagree (k + 1) (by simpa using Nat.succ_lt_succ hk)
    have hfail' : ∀ k, k < rest.length → attemptFails (env ((i₀ + 1) + k)) = true := by
      intro k hk
      rw [show (i₀ + 1) + k = i₀ + (k + 1) from by omega]
      exact hfail (k + 1) (by simpa using Nat.succ_lt_succ hk)
    unfold ttLoop lastRecordedError
    rw [hagree0]
    rcases henv : env i₀ with ⟨p, files⟩ | _ <;> dsimp only
    · rcases hrun : _run p with e | v <;> dsimp only
      · rw [ih (i₀ + 1) (some e) hagree' hfail']
        simp [recordedError, henv, hrun]
      · have hz := _run_ok_exit p v hrun
        have hempty : files = [] := by
          rw [henv] at hfail0
          simp only [attemptFails, hz] at hfail0
          simpa using hfail0
        rw [if_neg (by simp [hempty]), ih (i₀ + 1) acc hagree' hfail']
        simp [recordedError, henv, hrun]
    · rw [ih (i₀ + 1) _ hagree' hfail']
      simp [recordedError, henv]

/-- Witness for the amended C4: all four strategies fail, the last one by
timeout, and the attached error is that final timeout. -/
def envAllFail : ℕ → AttemptOutcome := fun i =>
  if i = 4 then AttemptOutcome.timedOut
  else AttemptOutcome.completed ⟨1, "", "err"⟩ []

theorem all_strategies_exhausted_witness :
    ttLoop envAllFail 4 tiktokStrategies 1 none =
      Except.error (exhaustMsg 4
        (lastRecordedError envAllFail tiktokStrategies 1 none)) ∧
    lastRecordedError envAllFail tiktokStrategies 1 none =
      some "Timeout after 90s" := by
  constructor
  · exact all_strategies_exhausted envAllFail envAllFail tiktokStrategies 4 1
      none (fun k _ => rfl)
      (by
        intro k hk
        have hk4 : k < 4 := by simpa [tiktokStrategies] using hk
        interval_cases k <;> decide)
  · rfl

/-! ### C8: the process-runner contract -/

/-- `listStarts` is reflexive. -/
theorem listStarts_refl : ∀ (l : List Char), listStarts l l = true := by
  intro l
  induction l with
  | nil => rfl
  | cons a rest ih => simp [listStarts, ih]

/-- A list occurs as a substring at the end of any extension on the
left. -/
theorem listContains_suffix : ∀ (pre l : List Char),
    listContains l (pre ++ l) = true := by
  intro pre
  induction pre with
  | nil =>
    intro l
    rcases l with _ | ⟨c, cs⟩
    · rfl
    · simp [listContains, listStarts_refl]
  | cons a pre' ih =>
    intro l
    simp [listContains, ih l]

/-- A string contains any of its suffixes. -/
theorem strContains_append (a b : String) : strContains (a ++ b) b = true := by
  unfold strContains
  rw [show (a ++ b).data = a.data ++ b.data from rfl]
  exact listContains_suffix a.data b.data

/-- **C8 (amended).** The downloader module's runner `_run` fails with a
structured failure exactly on non-zero exit (the failure text containing
the captured stderr) and returns stdout/stderr on zero exit; it imposes
no deadline itself.  The tiktok module's runner enforces its fixed 120 s
deadline, killing the subprocess and failing on expiry — but it returns
the captured output *regardless of exit code* (it never inspects it). -/
theorem process_runner_contract :
    (∀ p : ProcResult, p.exitCode = 0 → _run p = Except.ok (p.stdout, p.stderr)) ∧
    (∀ p : ProcResult, p.exitCode ≠ 0 →
      ∃ msg, _run p = Except.error msg ∧ strContains msg p.stderr = true) ∧
    (∀ p : ProcResult, (∃ v, _run p = Except.ok v) ↔ p.exitCode = 0) ∧
    (∀ c o e, _run_ytdlp_command (ProcBehavior.finishes c o e) =
      (Except.ok (o, e), false)) ∧
    _run_ytdlp_command ProcBehavior.runsPast =
      (Except.error "Download timed out after 120 seconds", true) := by
  refine ⟨?_, ?_, ?_, fun c o e => rfl, rfl⟩
  · intro p hz
    rw [_run, if_neg (by simp [hz])]
  · intro p hz
    refine ⟨"Command failed: " ++ p.stderr, ?_, strContains_append _ _⟩
    rw [_run, if_pos hz]
  · intro p
    constructor
    · rintro ⟨v, hv⟩
      exact _run_ok_exit p v hv
    · intro hz
      exact ⟨(p.stdout, p.stderr), by rw [_run, if_neg (by simp [hz])]⟩

theorem process_runner_contract_witness :
    _run ⟨0, "meta", "log"⟩ = Except.ok ("meta", "log") ∧
    (∃ msg, _run ⟨2, "", "boom"⟩ = Except.error msg ∧
      strContains msg "boom" = true) := by
  constructor
  · exact process_runner_contract.1 ⟨0, "meta", "log"⟩ rfl
  · exact process_runner_contract.2.1 ⟨2, "", "boom"⟩ (by decide)

/-- C8 counterexample: a non-zero exit through `_run_ytdlp_command` is
*not* turned into a failure — the runner never inspects the exit code, so
the claim "fails with a structured process failure exactly when the
process exits non-zero" is false of this runner. -/
theorem nonzero_exit_not_failure :
    _run_ytdlp_command (ProcBehavior.finishes 1 "out" "boom") =
      (Except.ok ("out", "boom"), false) ∧ (1 : ℤ) ≠ 0 := by
  exact ⟨rfl, by decide⟩

/-! ## Platform detection and the size probe
(`utils/downloader.py` lines 33-48 and 77-131) -/

/-- Python `str.lower()`, character by character. -/
def strToLower (s : String) : String :=
  String.mk (s.data.map Char.toLower)

/-- `detect_platform`: case-insensitive substring matching, first match
wins, default `"other"`. -/
def detect_platform (url : String) : String :=
  let u := strToLower url
  if strContains u "instagram.com" || strContains u "instagr.am" then "instagram"
  else if strContains u "tiktok.com" || strContains u "vm.tiktok.com" then "tiktok"
  else if strContains u "youtube.com" || strContains u "youtu.be" then "youtube"
  else if strContains u "twitter.com" || strContains u "x.com" then "twitter"
  else if strContains u "facebook.com" || strContains u "fb.watch" then "facebook"
  else "other"

/-- One entry of the yt-dlp `formats` list, restricted to the keys the
probe reads; `none` models a missing or `null` key. -/
structure Fmt where
  format_id : Option String
  filesize : Option ℕ
  filesize_approx : Option ℕ
  resolution : Option String
  ext : Option String
deriving DecidableEq

/-- The sort key `x.get('filesize', 0) or 0`: only the reported
`filesize`, never the approximate size. -/
def pySortKey (f : Fmt) : ℕ := f.filesize.getD 0

/-- `fmt.get('filesize') or fmt.get('filesize_approx') or 0` (Python `or`
falls through on `None` and `0`). -/
def fmtSize (f : Fmt) : ℕ :=
  match f.filesize with
  | some n => if n ≠ 0 then n else f.filesize_approx.getD 0
  | none => f.filesize_approx.getD 0

/-- Stable insertion of `x` into a key-descending list, after the run of
strictly larger keys (ties keep original order, as in Python's stable
`sorted(..., reverse=True)`). -/
def insDesc (x : Fmt) : List Fmt → List Fmt
  | [] => [x]
  | y :: ys =>
    if pySortKey x < pySortKey y then y :: insDesc x ys else x :: y :: ys

/-- `sorted(formats, key=lambda x: x.get('filesize', 0) or 0,
reverse=True)`: a stable descending sort by reported filesize. -/
def sortDesc : List Fmt → List Fmt
  | [] => []
  | x :: xs => insDesc x (sortDesc xs)

/-- Eligibility test of the selection loop: `0 < size < max_size_mb *
1024 * 1024`. -/
def fmtOk (maxMB : ℕ) (f : Fmt) : Bool :=
  decide (0 < fmtSize f ∧ fmtSize f < maxMB * 1024 * 1024)

/-- The format the `for fmt in sorted(...)` loop returns on: the first
eligible entry of the sorted list. -/
def pickFormat (formats : List Fmt) (maxMB : ℕ) : Option Fmt :=
  (sortDesc formats).find? (fmtOk maxMB)

/-- Python's `round(q, 2)` (half-to-even) on rationals. -/
def pyRound2 (q : ℚ) : ℚ :=
  let f : ℤ := ⌊q * 100⌋
  let r : ℚ := q * 100 - f
  mkRat (if r < mkRat 1 2 then f
         else if mkRat 1 2 < r then f + 1
         else if Even f then f else f + 1) 100

/-- The dict returned by `check_video_size`, with every optional key. -/
structure SizeProbe where
  can_download : Bool
  platform : Option String := none
  note : Option String := none
  format_id : Option String := none
  size_mb : Option ℚ := none
  resolution : Option String := none
  ext : Option String := none
  reason : Option String := none
deriving DecidableEq

/-- Outcome of the metadata-dump invocation: the `_run`/`json.loads`
pipeline either raises or yields a parsed `formats` list. -/
inductive ProbeCall where
  | fails (e : String)
  | succeeds (formats : List Fmt)

/-- `check_video_size` (downloader.py 77-131). -/
def check_video_size (url : String) (max_size_mb : ℕ) (probe : ProbeCall) :
    SizeProbe :=
  if detect_platform url = "instagram" then
    { can_download := true, platform := some "instagram",
      note := some "Size check unavailable for Instagram" }
  else
    match probe with
    | .fails _ =>
      { can_download := true,
        note := some "Size check failed, attempting download anyway" }
    | .succeeds formats =>
      match pickFormat formats max_size_mb with
      | some f =>
        { can_download := true, format_id := f.format_id,
          size_mb := some (pyRound2 (mkRat (fmtSize f) (1024 * 1024))),
          resolution := some (f.resolution.getD "unknown"),
          ext := some (f.ext.getD "mp4") }
      | none =>
        { can_download := false,
          reason := some ("No format found under " ++ toString max_size_mb ++ "MB") }

/-- **C5.** The size probe is fail-open and total: whenever the
metadata-probe invocation itself fails, it still reports
`can_download = true` with a note (the Instagram branch never even
probes); being a total function into `SizeProbe`, it never raises. -/
theorem size_probe_fail_open (url : String) (maxMB : ℕ) (e : String) :
    (check_video_size url maxMB (ProbeCall.fails e)).can_download = true ∧
    ((check_video_size url maxMB (ProbeCall.fails e)).note =
        some "Size check unavailable for Instagram" ∨
      (check_video_size url maxMB (ProbeCall.fails e)).note =
        some "Size check failed, attempting download anyway") := by
  unfold check_video_size
  by_cases h : detect_platform url = "instagram"
  · rw [if_pos h]
    exact ⟨rfl, Or.inl rfl⟩
  · rw [if_neg h]
    exact ⟨rfl, Or.inr rfl⟩

/-- Membership in an insertion. -/
theorem insDesc_perm (x : Fmt) : ∀ (l : List Fmt),
    List.Perm (insDesc x l) (x :: l) := by
  intro l
  induction l with
  | nil => exact List.Perm.refl _
  | cons y ys ih =>
    unfold insDesc
    split
    · exact ((ih.cons y).trans (List.Perm.swap x y ys))
    · exact List.Perm.refl _

/-- The sort is a permutation of its input. -/
theorem sortDesc_perm : ∀ (l : List Fmt), List.Perm (sortDesc l) l := by
  intro l
  induction l with
  | nil => exact List.Perm.refl _
  | cons x xs ih =>
    exact (insDesc_perm x (sortDesc xs)).trans (ih.cons x)

/-- Insertion preserves key-descending pairwise order. -/
theorem insDesc_pairwise (x : Fmt) : ∀ (l : List Fmt),
    List.Pairwise (fun a b => pySortKey b ≤ pySortKey a) l →
    List.Pairwise (fun a b => pySortKey b ≤ pySortKey a) (insDesc x l) := by
  intro l
  induction l with
  | nil => intro _; simp [insDesc]
  | cons y ys ih =>
    intro hp
    obtain ⟨hy, hys⟩ := List.pairwise_cons.mp hp
    unfold insDesc
    split
    · refine List.pairwise_cons.mpr ⟨?_, ih hys⟩
      intro b hb
      rcases List.mem_cons.mp ((insDesc_perm x ys).mem_iff.mp hb) with h | h
      · subst h; omega
      · exact hy b h
    · refine List.pairwise_cons.mpr ⟨?_, hp⟩
      intro b hb
      rcases List.mem_cons.mp hb with h | h
      · subst h; omega
      · have := hy b h; omega

/-- The sorted list is key-descending. -/
theorem sortDesc_pairwise : ∀ (l : List Fmt),
    List.Pairwise (fun a b => pySortKey b ≤ pySortKey a) (sortDesc l) := by
  intro l
  induction l with
  | nil => simp [sortDesc]
  | cons x xs ih => exact insDesc_pairwise x (sortDesc xs) ih

/-- In a key-descending list, the first eligible entry has the maximal
key among all eligible entries. -/
theorem find_desc_max (p : Fmt → Bool) : ∀ (l : List Fmt) (f : Fmt),
    List.Pairwise (fun a b => pySortKey b ≤ pySortKey a) l →
    l.find? p = some f → ∀ g ∈ l, p g = true → pySortKey g ≤ pySortKey f := by
  intro l
  induction l with
  | nil => intro f _ hf; simp at hf
  | cons x rest ih =>
    intro f hp hf g hg hpg
    obtain ⟨hx, hrest⟩ := List.pairwise_cons.mp hp
    by_cases hpx : p x = true
    · rw [List.find?_cons_of_pos _ hpx] at hf
      have hfx : f = x := by simpa using hf.symm
      subst hfx
      rcases List.mem_cons.mp hg with h | h
      · subst h; exact le_refl _
      · exact hx g h
    · rw [List.find?_cons_of_neg _ (by simpa using hpx)] at hf
      rcases List.mem_cons.mp hg with h | h
      · subst h; exact absurd hpg hpx
      · exact ih f hrest hf g h hpg

/-- C6 counterexample formats: `fmtA` has a small reported size, `fmtB`
only an approximate size four times larger, both under the 50 MB
ceiling. -/
def fmtA : Fmt := ⟨some "A", some 10000000, none, some "360p", some "mp4"⟩

def fmtB : Fmt := ⟨some "B", none, some 40000000, some "720p", some "mp4"⟩

/-- C6 counterexample: the probe selects `fmtA` (10 MB reported) even
though `fmtB`'s reported-or-approximate size (40 MB) is larger and under
the ceiling — because the sort key ignores `filesize_approx`, `fmtB`
sorts as size 0.  This refutes "selects the largest format whose reported
or approximate byte size is under the ceiling". -/
theorem size_probe_not_largest_approx :
    pickFormat [fmtA, fmtB] 50 = some fmtA ∧
    (check_video_size "https://youtube.com/watch?v=x" 50
      (ProbeCall.succeeds [fmtA, fmtB])).format_id = some "A" ∧
    fmtSize fmtA = 10000000 ∧ fmtSize fmtB = 40000000 ∧
    fmtSize fmtB < 50 * 1024 * 1024 ∧ fmtSize fmtA < fmtSize fmtB := by
  refine ⟨by decide, ?_, by decide, by decide, by decide, by decide⟩
  decide

/-- **C6 (amended).** For a non-Instagram URL whose probe succeeds, the
selected format is eligible (positive reported-or-approximate size under
the ceiling) and maximizes the *reported* `filesize` among eligible
formats (formats lacking a reported size sort as 0, so among them the
first in metadata order wins); its size and resolution are returned.  If
no format is eligible the probe returns `can_download = false` with the
human-readable reason. -/
theorem size_probe_selection (url : String) (maxMB : ℕ) (formats : List Fmt)
    (hplat : detect_platform url ≠ "instagram") :
    (∀ f, pickFormat formats maxMB = some f →
      (0 < fmtSize f ∧ fmtSize f < maxMB * 1024 * 1024) ∧ f ∈ formats ∧
      (∀ g ∈ formats, 0 < fmtSize g → fmtSize g < maxMB * 1024 * 1024 →
        pySortKey g ≤ pySortKey f) ∧
      check_video_size url maxMB (ProbeCall.succeeds formats) =
        { can_download := true, format_id := f.format_id,
          size_mb := some (pyRound2 (mkRat (fmtSize f) (1024 * 1024))),
          resolution := some (f.resolution.getD "unknown"),
          ext := some (f.ext.getD "mp4") }) ∧
    (pickFormat formats maxMB = none →
      check_video_size url maxMB (ProbeCall.succeeds formats) =
        { can_download := false,
          reason := some ("No format found under " ++ toString maxMB ++ "MB") }) := by
  constructor
  · intro f hf
    have hok : fmtOk maxMB f = true := List.find?_some hf
    have hmem : f ∈ formats :=
      (sortDesc_perm formats).subset (List.mem_of_find?_eq_some hf)
    refine ⟨by simpa [fmtOk] using hok, hmem, ?_, ?_⟩
    · intro g hg h1 h2
      exact find_desc_max (fmtOk maxMB) (sortDesc formats) f
        (sortDesc_pairwise formats) hf g
        ((sortDesc_perm formats).mem_iff.mpr hg)
        (by simp [fmtOk, h1, h2])
    · unfold check_video_size
      rw [if_neg hplat]
      dsimp only
      unfold pickFormat at hf
      rw [show pickFormat formats maxMB = some f from hf]
  · intro hnone
    unfold check_video_size
    rw [if_neg hplat]
    dsimp only
    rw [hnone]

/-- Witness for the amended C6 at the concrete two-format metadata list:
`fmtA` is selected, is eligible, and maximizes the reported filesize
among eligible formats. -/
theorem size_probe_selection_witness :
    (0 < fmtSize fmtA ∧ fmtSize fmtA < 50 * 1024 * 1024) ∧
    fmtA ∈ [fmtA, fmtB] ∧
    (∀ g ∈ [fmtA, fmtB], 0 < fmtSize g → fmtSize g < 50 * 1024 * 1024 →
      pySortKey g ≤ pySortKey fmtA) ∧
    check_video_size "https://youtube.com/watch?v=x" 50
        (ProbeCall.succeeds [fmtA, fmtB]) =
      { can_download := true, format_id := some "A",
        size_mb := some (pyRound2 (mkRat (fmtSize fmtA) (1024 * 1024))),
        resolution := some "360p", ext := some "mp4" } :=
  (size_probe_selection "https://youtube.com/watch?v=x" 50 [fmtA, fmtB]
    (by decide)).1 fmtA (by decide)

/-- **C10.** If the successfully parsed metadata lists only formats whose
reported-or-approximate size is missing or zero, the probe rejects with
the `'No format found under ...MB'` reason even though the probe call
itself succeeded. -/
theorem zero_size_formats_rejected (url : String) (maxMB : ℕ)
    (formats : List Fmt) (hplat : detect_platform url ≠ "instagram")
    (hz : ∀ f ∈ formats, fmtSize f = 0) :
    check_video_size url maxMB (ProbeCall.succeeds formats) =
      { can_download := false,
        reason := some ("No format found under " ++ toString maxMB ++ "MB") } := by
  have hnone : pickFormat formats maxMB = none := by
    unfold pickFormat
    rw [List.find?_eq_none]
    intro x hx
    have := hz x ((sortDesc_perm formats).subset hx)
    simp [fmtOk, this]
  exact (size_probe_selection url maxMB formats hplat).2 hnone

/-- Witness for C10: one format with no size keys and one with explicit
zeroes. -/
theorem zero_size_formats_rejected_witness :
    check_video_size "https://youtu.be/abc" 50
        (ProbeCall.succeeds
          [⟨some "X", none, none, none, none⟩,
           ⟨some "Y", some 0, some 0, some "1080p", some "mp4"⟩]) =
      { can_download := false,
        reason := some ("No format found under " ++ toString 50 ++ "MB") } :=
  zero_size_formats_rejected "https://youtu.be/abc" 50 _ (by decide)
    (by decide)

/-! ## Rate limiter (handlers/download.py lines 24-55)

Timestamps (`time.time()` floats) are modelled by `ℚ`; the defaultdict
of per-user request logs by a total function with default `[]`.  Each
method takes its reading of the clock as an explicit argument. -/

/-- The `RateLimiter` construction parameters. -/
structure RateLimiter where
  max_requests : ℕ
  time_window : ℚ

/-- The module-level instance: `RateLimiter(max_requests=10,
time_window=60)`. -/
def rate_limiter : RateLimiter := ⟨10, 60⟩

/-- `self.requests : defaultdict(list)` keyed by user id. -/
structure RLState where
  requests : ℤ → List ℚ

/-- The empty tracker. -/
def rlEmpty : RLState := ⟨fun _ => []⟩

/-- `is_allowed` (lines 30-42): drop entries older than the window,
reject without recording when the quota is filled, otherwise append the
current time and allow. -/
def is_allowed (rl : RateLimiter) (st : RLState) (uid : ℤ) (now : ℚ) :
    Bool × RLState :=
  if rl.max_requests ≤
      ((st.requests uid).filter
        (fun t => decide (now - t < rl.time_window))).length then
    (false, ⟨fun u => if u = uid then
      (st.requests uid).filter (fun t => decide (now - t < rl.time_window))
      else st.requests u⟩)
  else
    (true, ⟨fun u => if u = uid then
      (st.requests uid).filter (fun t => decide (now - t < rl.time_window))
        ++ [now]
      else st.requests u⟩)

/-- Python `int(...)`: truncation toward zero. -/
def pyInt (q : ℚ) : ℤ := if 0 ≤ q then ⌊q⌋ else -⌊-q⌋

/-- `time_until_allowed` (lines 44-52): seconds until the oldest recorded
request leaves the window, truncated to an int and clamped at 0. -/
def time_until_allowed (rl : RateLimiter) (st : RLState) (uid : ℤ)
    (now : ℚ) : ℤ :=
  match st.requests uid with
  | [] => 0
  | oldest :: _ => max 0 (pyInt (rl.time_window - (now - oldest)))

/-- A sequence of requests for one user, returning the decisions in order
and the final state. -/
def runRequestsB (rl : RateLimiter) (uid : ℤ) :
    RLState → List ℚ → List Bool × RLState
  | st, [] => ([], st)
  | st, t :: ts =>
    let r := is_allowed rl st uid t
    let rest := runRequestsB rl uid r.2 ts
    (r.1 :: rest.1, rest.2)

/-- When every logged entry is still inside the window, cleaning keeps
them all. -/
theorem rl_filter_all (l : List ℚ) (now w : ℚ) (h : ∀ x ∈ l, now - x < w) :
    l.filter (fun t => decide (now - t < w)) = l :=
  List.filter_eq_self.mpr (by intro x hx; simpa using h x hx)

/-- Requests all lying within one window of each other and under quota
are all allowed, and are logged in arrival order. -/
theorem rl_run_all (rl : RateLimiter) (uid : ℤ) (t0 u : ℚ)
    (hwin : u - t0 < rl.time_window) :
    ∀ (ts : List ℚ) (st : RLState),
      (st.requests uid).length + ts.length ≤ rl.max_requests →
      (∀ x ∈ st.requests uid, t0 ≤ x ∧ x ≤ u) →
      (∀ x ∈ ts, t0 ≤ x ∧ x ≤ u) →
      (runRequestsB rl uid st ts).1 = List.replicate ts.length true ∧
      ((runRequestsB rl uid st ts).2).requests uid = st.requests uid ++ ts := by
  intro ts
  induction ts with
  | nil =>
    intro st _ _ _
    exact ⟨rfl, (List.append_nil _).symm⟩
  | cons t ts' ih =>
    intro st hlen hst hts
    have htmem := hts t (List.mem_cons_self t ts')
    have hclean : (st.requests uid).filter
        (fun x => decide (t - x < rl.time_window)) = st.requests uid := by
      apply rl_filter_all
      intro x hx
      have hxb := hst x hx
      have : t - x ≤ u - t0 := by linarith [htmem.2, hxb.1]
      linarith
    have hquota : ¬ (rl.max_requests ≤ (st.requests uid).length) := by
      simp only [List.length_cons] at hlen
      omega
    have hstep : is_allowed rl st uid t =
        (true, ⟨fun v => if v = uid then st.requests uid ++ [t]
                else st.requests v⟩) := by
      unfold is_allowed
      rw [hclean, if_neg hquota]
    have hnew : (⟨fun v => if v = uid then st.requests uid ++ [t]
        else st.requests v⟩ : RLState).requests uid =
        st.requests uid ++ [t] := by simp
    have ih' := ih ⟨fun v => if v = uid then st.requests uid ++ [t]
        else st.requests v⟩
      (by rw [hnew]; simp only [List.length_append, List.length_singleton]
          simp only [List.length_cons] at hlen; omega)
      (by rw [hnew]; intro x hx
          rcases List.mem_append.mp hx with h | h
          · exact hst x h
          · simp at h; subst h; exact htmem)
      (fun x hx => hts x (List.mem_cons_of_mem t hx))
    unfold runRequestsB
    rw [hstep]
    dsimp only
    refine ⟨?_, ?_⟩
    · rw [ih'.1, List.length_cons, List.replicate_succ]
    · rw [ih'.2, hnew, List.append_assoc, List.singleton_append]

/-- **C9 (amended).** From an empty log, ten requests within one window
are all allowed; an 11th at time `u` still within 60 s of the oldest is
rejected, and the reported wait is `max 0 ⌊60 − (u − t0)⌋` — non-negative,
and strictly positive whenever the oldest request is at most 59 s old
(in the final fractional second the truncation reports 0) — while the
first request arriving once the oldest entry has aged out (≥ 60 s) is
allowed again. -/
theorem rate_limiter_window (uid : ℤ) (t0 u : ℚ) (ts : List ℚ)
    (hlen : ts.length = 10) (hhead : ts.head? = some t0)
    (hmem : ∀ x ∈ ts, t0 ≤ x ∧ x ≤ u)
    (hwin : u - t0 < 60) :
    (runRequestsB rate_limiter uid rlEmpty ts).1 = List.replicate 10 true ∧
    (is_allowed rate_limiter (runRequestsB rate_limiter uid rlEmpty ts).2
      uid u).1 = false ∧
    time_until_allowed rate_limiter
        (is_allowed rate_limiter (runRequestsB rate_limiter uid rlEmpty ts).2
          uid u).2 uid u =
      max 0 (pyInt (60 - (u - t0))) ∧
    (u - t0 ≤ 59 →
      1 ≤ time_until_allowed rate_limiter
        (is_allowed rate_limiter (runRequestsB rate_limiter uid rlEmpty ts).2
          uid u).2 uid u) ∧
    (∀ v, 60 ≤ v - t0 →
      (is_allowed rate_limiter
        (is_allowed rate_limiter (runRequestsB rate_limiter uid rlEmpty ts).2
          uid u).2 uid v).1 = true) := by
  obtain ⟨hb, hstate⟩ := rl_run_all rate_limiter uid t0 u hwin ts rlEmpty
    (by simp [rlEmpty, hlen, rate_limiter])
    (by simp [rlEmpty]) hmem
  rw [show rlEmpty.requests uid ++ ts = ts from by simp [rlEmpty]] at hstate
  obtain ⟨rest, hts⟩ : ∃ rest, ts = t0 :: rest := by
    rcases ts with _ | ⟨a, r⟩
    · simp at hhead
    · exact ⟨r, by rw [show a = t0 from by simpa using hhead]⟩
  have hclean : ts.filter (fun t => decide (u - t < (60 : ℚ))) = ts := by
    apply rl_filter_all
    intro x hx
    have := hmem x hx
    linarith [this.1]
  have hreject : is_allowed rate_limiter
      (runRequestsB rate_limiter uid rlEmpty ts).2 uid u =
      (false, ⟨fun v => if v = uid then ts
               else ((runRequestsB rate_limiter uid rlEmpty ts).2).requests v⟩) := by
    unfold is_allowed
    rw [hstate, show rate_limiter.time_window = (60 : ℚ) from rfl, hclean,
      if_pos (by rw [hlen]; exact le_refl _)]
  have hafter : ((is_allowed rate_limiter
      (runRequestsB rate_limiter uid rlEmpty ts).2 uid u).2).requests uid = ts := by
    rw [hreject]; simp
  obtain ⟨st2, hst2⟩ : ∃ st2, (is_allowed rate_limiter
      (runRequestsB rate_limiter uid rlEmpty ts).2 uid u).2 = st2 := ⟨_, rfl⟩
  rw [hst2] at hafter
  have hwait : time_until_allowed rate_limiter st2 uid u =
      max 0 (pyInt (60 - (u - t0))) := by
    unfold time_until_allowed
    rw [hafter, hts]
    rfl
  refine ⟨by rw [← hlen]; exact hb, by rw [hreject], by rw [hst2, hwait],
    ?_, ?_⟩
  · intro h59
    rw [hst2, hwait]
    have h1 : (1 : ℚ) ≤ 60 - (u - t0) := by linarith
    have h0q : (0 : ℚ) ≤ 60 - (u - t0) := by linarith
    have hfl : (1 : ℤ) ≤ ⌊(60 : ℚ) - (u - t0)⌋ := by
      rw [Int.le_floor]; push_cast; exact h1
    rw [pyInt, if_pos h0q]
    omega
  · intro v hv
    rw [hst2]
    have hlenf : ((st2.requests uid).filter
        (fun t => decide (v - t < rate_limiter.time_window))).length ≤ 9 := by
      rw [hafter, hts, show rate_limiter.time_window = (60 : ℚ) from rfl,
        List.filter_cons_of_neg (by simp; linarith)]
      have hle := List.length_filter_le
        (fun t => decide (v - t < (60 : ℚ))) rest
      have hr : rest.length = 9 := by
        rw [hts] at hlen; simpa using hlen
      omega
    unfold is_allowed
    rw [if_neg (by simp only [rate_limiter] at hlenf ⊢; omega)]

/-- The concrete schedule used in the C9 counterexample and witness: ten
requests at seconds 0 through 9. -/
def cexTimes : List ℚ := [0, 1, 2, 3, 4, 5, 6, 7, 8, 9]

/-- C9 counterexample: after ten requests at seconds 0-9, an 11th request
at 59.5 s is inside the sliding window and rejected — but
`time_until_allowed` reports 0 seconds (int-truncation of the remaining
0.5 s), refuting "reports a strictly positive number of seconds". -/
theorem rate_limiter_wait_can_be_zero :
    (runRequestsB rate_limiter 7 rlEmpty cexTimes).1 =
      List.replicate 10 true ∧
    ((119 : ℚ) / 2 - 0 < 60) ∧
    (is_allowed rate_limiter (runRequestsB rate_limiter 7 rlEmpty cexTimes).2
      7 (119 / 2)).1 = false ∧
    time_until_allowed rate_limiter
      (is_allowed rate_limiter (runRequestsB rate_limiter 7 rlEmpty cexTimes).2
        7 (119 / 2)).2 7 (119 / 2) = 0 := by
  have hmem : ∀ x ∈ cexTimes, (0 : ℚ) ≤ x ∧ x ≤ 119 / 2 := by
    intro x hx
    simp [cexTimes] at hx
    rcases hx with rfl | rfl | rfl | rfl | rfl | rfl | rfl | rfl | rfl | rfl <;>
      norm_num
  obtain ⟨hb, hstate⟩ := rl_run_all rate_limiter 7 0 (119 / 2)
    (by norm_num [rate_limiter])
    cexTimes rlEmpty (by simp [rlEmpty, cexTimes, rate_limiter])
    (by simp [rlEmpty]) hmem
  rw [show rlEmpty.requests 7 ++ cexTimes = cexTimes from by simp [rlEmpty]]
    at hstate
  have hclean : cexTimes.filter
      (fun t => decide ((119 : ℚ) / 2 - t < 60)) = cexTimes := by
    apply rl_filter_all
    intro x hx
    have := hmem x hx
    linarith [this.1]
  have hreject : is_allowed rate_limiter
      (runRequestsB rate_limiter 7 rlEmpty cexTimes).2 7 (119 / 2) =
      (false, ⟨fun v => if v = 7 then cexTimes
               else ((runRequestsB rate_limiter 7 rlEmpty cexTimes).2).requests v⟩) := by
    unfold is_allowed
    rw [hstate, show rate_limiter.time_window = (60 : ℚ) from rfl, hclean,
      if_pos (by simp [cexTimes, rate_limiter])]
  have hafter : ((is_allowed rate_limiter
      (runRequestsB rate_limiter 7 rlEmpty cexTimes).2 7 (119 / 2)).2).requests 7 =
      cexTimes := by
    rw [hreject]; simp
  obtain ⟨st2, hst2⟩ : ∃ st2, (is_allowed rate_limiter
      (runRequestsB rate_limiter 7 rlEmpty cexTimes).2 7 (119 / 2)).2 = st2 :=
    ⟨_, rfl⟩
  rw [hst2] at hafter
  have hfl : ⌊(60 : ℚ) - (119 / 2 - 0)⌋ = 0 := by
    rw [Int.floor_eq_zero_iff]
    constructor <;> norm_num
  have hwait : time_until_allowed rate_limiter st2 7 (119 / 2) = 0 := by
    unfold time_until_allowed
    rw [hafter]
    simp only [cexTimes]
    rw [show rate_limiter.time_window = (60 : ℚ) from rfl, pyInt,
      if_pos (by norm_num), hfl]
    rfl
  refine ⟨by rw [← show cexTimes.length = 10 from rfl]; exact hb,
    by norm_num, by rw [hreject], by rw [hst2, hwait]⟩

/-- Witness for the amended C9: the same ten-request schedule with the
11th request at 30 s (wait strictly positive) and a later request at 61 s
(allowed again). -/
theorem rate_limiter_window_witness :
    (runRequestsB rate_limiter 3 rlEmpty cexTimes).1 =
      List.replicate 10 true ∧
    (is_allowed rate_limiter (runRequestsB rate_limiter 3 rlEmpty cexTimes).2
      3 30).1 = false ∧
    1 ≤ time_until_allowed rate_limiter
      (is_allowed rate_limiter (runRequestsB rate_limiter 3 rlEmpty cexTimes).2
        3 30).2 3 30 ∧
    (is_allowed rate_limiter
      (is_allowed rate_limiter (runRequestsB rate_limiter 3 rlEmpty cexTimes).2
        3 30).2 3 61).1 = true := by
  have hmem : ∀ x ∈ cexTimes, (0 : ℚ) ≤ x ∧ x ≤ 30 := by
    intro x hx
    simp [cexTimes] at hx
    rcases hx with rfl | rfl | rfl | rfl | rfl | rfl | rfl | rfl | rfl | rfl <;>
      norm_num
  have h := rate_limiter_window 3 0 30 cexTimes rfl rfl hmem (by norm_num)
  exact ⟨h.1, h.2.1, h.2.2.2.1 (by norm_num), h.2.2.2.2 61 (by norm_num)⟩
